import Mathlib

/-!
Shallow embedding of `tunnel.go` from the iris-go binding: the per-stream
tunnel logic (chunked send, chunk reassembly, credit-based flow control,
termination).  Bytes are modelled as `Nat`, Go byte slices as `List Nat`.
A Go slice with distinct length and capacity (the reassembly buffer
`chunkBuf`, created by `make([]byte, 0, size)`) is modelled as a pair of
its contents and its capacity; `nil` is `Option.none`.

Blocking operations (`Send`/`sendChunk`, `Recv`, `Close`) are modelled by
their immediate outcome on the current tunnel state, with a distinguished
result for the case in which the Go code would park in a `select`;
background `go`-routine allowance grants are returned as an explicit list
of effect values rather than executed.
-/

namespace IrisTunnel

/-- The tunnel state from `tunnel.go` (fields relevant to the per-stream
logic).  `chunkBuf` is the reassembly buffer together with the capacity it
was allocated with; `itoaBuf` is the inbound FIFO of assembled messages;
`itoaSign`/`atoiSign` model the one-slot signal channels as a Boolean
(token present or not); `term` models whether the `term` channel has been
closed; `stat` is the stored closure reason (`none` = graceful). -/
structure Tunnel where
  chunkLimit : Nat
  chunkBuf : Option (List Nat × Nat)
  itoaBuf : List (List Nat)
  itoaSign : Bool
  atoiSpace : Int
  atoiSign : Bool
  term : Bool
  stat : Option String
  deriving Repr, DecidableEq

/-- The freshly constructed tunnel from `newTunnel`: empty queue, no
signals pending, zero allowance, not terminal, no failure reason. -/
def newTunnel (chunkLimit : Nat) : Tunnel :=
  { chunkLimit := chunkLimit
    chunkBuf := none
    itoaBuf := []
    itoaSign := false
    atoiSpace := 0
    atoiSign := false
    term := false
    stat := none }

/-! ### Send-side chunk splitting (`Tunnel.Send`, lines 168-180)

The Go loop `for pos := 0; pos < len(message); pos += t.chunkLimit`
emits `message[pos:end]` with tag `len(message)` at `pos = 0` and `0`
afterwards.  The loop is modelled with explicit fuel (one unit per
iteration) so that its non-termination at `chunkLimit = 0` is expressible:
`none` means the fuel ran out before the loop condition became false. -/

/-- One chunk of the Send loop: the tag (`sizeOrCont`) and the slice
`message[pos:end]` where `end = min (pos + chunkLimit) message.length`. -/
def sendSplitFuel (message : List Nat) (chunkLimit : Nat) :
    Nat → Nat → Option (List (Nat × List Nat))
  | 0, pos => if pos < message.length then none else some []
  | fuel + 1, pos =>
    if pos < message.length then
      let tag := if pos = 0 then message.length else 0
      match sendSplitFuel message chunkLimit fuel (pos + chunkLimit) with
      | none => none
      | some rest => some ((tag, (message.drop pos).take chunkLimit) :: rest)
    else some []

/-- The chunk sequence `Send` emits for a message.  `message.length` units
of fuel suffice whenever `chunkLimit ≥ 1` (each iteration advances `pos`
by at least one). -/
def sendSplit (message : List Nat) (chunkLimit : Nat) : List (Nat × List Nat) :=
  (sendSplitFuel message chunkLimit message.length 0).getD []

/-! ### Inbound reassembly (`Tunnel.handleTransfer`, lines 313-339) -/

/-- Go's `append` on the reassembly buffer.  On a live buffer the declared
capacity is kept (the peer never sends more than the declared size, so the
Go reallocation-on-overflow path is never reached on protocol-conforming
traffic); appending to a `nil` buffer yields a buffer whose capacity Go
picks internally — modelled as the exact length. -/
def appendChunk (buf : Option (List Nat × Nat)) (chunk : List Nat) : List Nat × Nat :=
  match buf with
  | some (data, c) => (data ++ chunk, c)
  | none => (chunk, chunk.length)

/-- `handleTransfer(size, chunk)`: a non-zero `size` starts a new message,
discarding any pending partial buffer and granting its byte count back to
the peer (the `go sendTunnelAllowance` call, returned here as an effect
list); the chunk is appended and, when the buffer reaches its declared
capacity, the message is pushed onto the inbound queue, the buffer is
cleared and the arrival signal is raised idempotently. -/
def handleTransfer (t : Tunnel) (size : Nat) (chunk : List Nat) : Tunnel × List Nat :=
  let start :=
    if size ≠ 0 then
      match t.chunkBuf with
      | some (data, _) => ({ t with chunkBuf := some ([], size) }, [data.length])
      | none => ({ t with chunkBuf := some ([], size) }, ([] : List Nat))
    else (t, ([] : List Nat))
  let d := appendChunk start.1.chunkBuf chunk
  if d.1.length = d.2 then
    ({ start.1 with chunkBuf := none
                    itoaBuf := start.1.itoaBuf ++ [d.1]
                    itoaSign := true }, start.2)
  else
    ({ start.1 with chunkBuf := some d }, start.2)

/-- Feed a list of tagged chunks to `handleTransfer` in order, collecting
the allowance grants emitted along the way. -/
def feedChunks (t : Tunnel) : List (Nat × List Nat) → Tunnel × List Nat
  | [] => (t, [])
  | c :: rest =>
    let s1 := handleTransfer t c.1 c.2
    let s2 := feedChunks s1.1 rest
    (s2.1, s1.2 ++ s2.2)

/-! ### Flow control (`drainAllowance`, `handleAllowance`) -/

/-- `drainAllowance(need)`: under the allowance lock, subtract `need` if
the space covers it, otherwise drain the grant-signal token and fail. -/
def drainAllowance (t : Tunnel) (need : Int) : Bool × Tunnel :=
  if need ≤ t.atoiSpace then
    (true, { t with atoiSpace := t.atoiSpace - need })
  else
    (false, { t with atoiSign := false })

/-- `handleAllowance(space)`: add the grant and raise the grant signal
(idempotently: the one-slot channel send has a `default` branch). -/
def handleAllowance (t : Tunnel) (space : Int) : Tunnel :=
  { t with atoiSpace := t.atoiSpace + space, atoiSign := true }

/-- An operation on the allowance counter: a peer grant or a send-side
drain attempt. -/
inductive AtoiOp where
  | grant (g : Int)
  | drain (need : Int)
  deriving Repr, DecidableEq

/-- Apply one allowance operation to the tunnel state. -/
def applyAtoiOp (t : Tunnel) : AtoiOp → Tunnel
  | .grant g => handleAllowance t g
  | .drain need => (drainAllowance t need).2

/-- Apply a sequence of allowance operations left to right. -/
def applyAtoiOps (t : Tunnel) (ops : List AtoiOp) : Tunnel :=
  ops.foldl applyAtoiOp t

/-! ### Receive path (`fetchMessage`, `Recv`) -/

/-- `fetchMessage`: pop the head of the inbound queue if any, spawning a
background allowance grant of its length (returned as an effect list);
with an empty queue, drain the arrival-signal token and return nothing. -/
def fetchMessage (t : Tunnel) : Option (List Nat) × Tunnel × List Nat :=
  match t.itoaBuf with
  | msg :: rest => (some msg, { t with itoaBuf := rest }, [msg.length])
  | [] => (none, { t with itoaSign := false }, [])

/-- Immediate outcome of a blocking receive. -/
inductive RecvOutcome where
  | msg (m : List Nat)
  | closed
  | waits
  deriving Repr, DecidableEq

/-- `Recv`'s immediate behaviour on the current state, assuming no
concurrent event lands between its steps: a buffered message is returned
(even on a terminal tunnel); otherwise — the arrival token having just
been drained by `fetchMessage` — the `select` takes the `term` branch when
the tunnel is terminal and parks otherwise. -/
def recvStep (t : Tunnel) : RecvOutcome × Tunnel × List Nat :=
  let f := fetchMessage t
  match f.1 with
  | some m => (.msg m, f.2.1, f.2.2)
  | none =>
    if f.2.1.term then (.closed, f.2.1, []) else (.waits, f.2.1, [])

/-! ### Send path (`sendChunk`, `Send`) -/

/-- Immediate outcome of a blocking send. -/
inductive SendOutcome where
  | ok
  | invalidArg
  | closed
  | waits
  deriving Repr, DecidableEq

/-- `sendChunk`'s immediate behaviour for a chunk of `n` bytes: if the
drain succeeds the chunk goes out at once; otherwise — the grant token
having just been drained — the `select` fails with `Closed` on a terminal
tunnel and parks otherwise. -/
def sendChunkStep (t : Tunnel) (n : Int) : SendOutcome × Tunnel :=
  let d := drainAllowance t n
  if d.1 then (.ok, d.2)
  else if d.2.term then (.closed, d.2) else (.waits, d.2)

/-- Run `sendChunk` over the chunk list in order, stopping at the first
chunk that does not go out immediately. -/
def sendSteps (t : Tunnel) : List (Nat × List Nat) → SendOutcome × Tunnel
  | [] => (.ok, t)
  | c :: rest =>
    let s := sendChunkStep t (c.2.length : Int)
    if s.1 = .ok then sendSteps s.2 rest else s

/-- `Send(message)`'s immediate behaviour: reject empty messages, then
push the split chunks through `sendChunk`. -/
def sendModel (t : Tunnel) (message : List Nat) : SendOutcome × Tunnel :=
  if message = [] then (.invalidArg, t)
  else sendSteps t (sendSplit message t.chunkLimit)

/-! ### Teardown (`Close`, `handleClose`) -/

/-- `handleClose(reason)`: record the failure reason when non-empty, then
`close(t.term)`.  Closing an already-closed Go channel panics, so the call
on an already-terminal tunnel is a fault, modelled as `none`. -/
def handleClose (t : Tunnel) (reason : String) : Option Tunnel :=
  if t.term then none
  else
    some { t with
      stat := if reason ≠ "" then some ("remote error: " ++ reason) else t.stat
      term := true }

/-- Immediate outcome of `Close`. -/
inductive CloseOutcome where
  | done (stat : Option String)
  | waits
  deriving Repr, DecidableEq

/-- `Close`'s immediate behaviour together with whether it sent a close
notification: on a terminal tunnel it returns the stored reason without
sending anything; otherwise it sends the close notification and blocks on
the `term` channel. -/
def closeStep (t : Tunnel) : CloseOutcome × Bool :=
  if t.term then (.done t.stat, false) else (.waits, true)

/-! ### Handshake (`initTunnel`, `handleInitResult`) -/

/-- Error values surfaced by tunnel construction. -/
inductive IrisError where
  | invalidArg
  | timeout
  | closed
  | transport
  deriving Repr, DecidableEq

/-- What `initTunnel`'s wait resolves to: the relay's init result carrying
the negotiated chunk limit (`0` = rejection/timeout), or connection-wide
termination. -/
inductive InitEvent where
  | result (chunkLimit : Nat)
  | connTerm
  deriving Repr, DecidableEq

/-- `Connection.initTunnel` (lines 79-121), with the connection's registry
modelled as the list of live tunnel ids (Go map deletion is modelled as
filtering the id out).  The transport sends are modelled by Booleans
saying whether `sendTunnelInit` resp. the initial `sendTunnelAllowance`
succeed.  Returns the registry afterwards and `none` on success (the
tunnel is handed to the caller) or the construction error. -/
def initTunnelModel (reg : List Nat) (tunId : Nat) (cluster : String)
    (timeoutms : Int) (initSendOk : Bool) (ev : InitEvent) (allowSendOk : Bool) :
    List Nat × Option IrisError :=
  if cluster.length = 0 then (reg, some .invalidArg)
  else if timeoutms < 1 then (reg, some .invalidArg)
  else
    let reg1 := reg ++ [tunId]
    if initSendOk then
      match ev with
      | .result limit =>
        if limit > 0 then
          if allowSendOk then (reg1, none)
          else (reg1.filter (· ≠ tunId), some .transport)
        else (reg1.filter (· ≠ tunId), some .timeout)
      | .connTerm => (reg1.filter (· ≠ tunId), some .closed)
    else (reg1.filter (· ≠ tunId), some .transport)

/-- `handleInitResult(chunkLimit)` records a positive negotiated chunk
limit and then performs `t.init <- (chunkLimit > 0)` — a send on an
*unbuffered* channel, which completes only by rendezvous with the
receiver inside `initTunnel`'s `select`.  `receiverReady` says whether
that receiver is parked; without it the send blocks, modelled as `none`.
On completion the delivered Boolean is returned with the new state. -/
def handleInitResult (t : Tunnel) (chunkLimit : Nat) (receiverReady : Bool) :
    Option (Tunnel × Bool) :=
  let t' := if chunkLimit > 0 then { t with chunkLimit := chunkLimit } else t
  if receiverReady then some (t', decide (chunkLimit > 0)) else none

/-! ### Helper lemmas about the Send split loop -/

/-- Once the loop position has reached the message length the loop body is
never entered: any fuel yields the empty chunk list. -/
theorem sendSplitFuel_done (msg : List Nat) (C fuel pos : Nat)
    (h : msg.length ≤ pos) : sendSplitFuel msg C fuel pos = some [] := by
  cases fuel <;> simp [sendSplitFuel, Nat.not_lt.mpr h]

/-- Fuel sufficiency: `fuel` iterations complete the loop as soon as
`fuel * C` covers the remaining bytes. -/
theorem sendSplitFuel_isSome (msg : List Nat) (C : Nat) :
    ∀ fuel pos, msg.length ≤ pos + fuel * C →
      ∃ l, sendSplitFuel msg C fuel pos = some l := by
  intro fuel
  induction fuel with
  | zero =>
    intro pos h
    exact ⟨[], sendSplitFuel_done msg C 0 pos (by simpa using h)⟩
  | succ n ih =>
    intro pos h
    by_cases hp : pos < msg.length
    · obtain ⟨l, hl⟩ := ih (pos + C) (by rw [Nat.succ_mul] at h; omega)
      exact ⟨(if pos = 0 then msg.length else 0, (msg.drop pos).take C) :: l,
        by simp [sendSplitFuel, hp, hl]⟩
    · exact ⟨[], by simp [sendSplitFuel, hp]⟩

/-- With a positive chunk limit, `message.length` units of fuel always
complete the loop, so `sendSplit` is the loop's actual output. -/
theorem sendSplit_eq_some (msg : List Nat) (C : Nat) (hC : 0 < C) :
    sendSplitFuel msg C msg.length 0 = some (sendSplit msg C) := by
  obtain ⟨l, hl⟩ := sendSplitFuel_isSome msg C msg.length 0
    (by simpa using Nat.mul_le_mul_left msg.length hC)
  rw [sendSplit, hl]
  rfl

/-- The emitted chunks concatenate, in order, to the not-yet-consumed
suffix of the message. -/
theorem sendSplitFuel_flatten (msg : List Nat) (C : Nat) :
    ∀ fuel pos l, sendSplitFuel msg C fuel pos = some l →
      (l.map Prod.snd).flatten = msg.drop pos := by
  intro fuel
  induction fuel with
  | zero =>
    intro pos l h
    by_cases hp : pos < msg.length
    · simp [sendSplitFuel, hp] at h
    · simp [sendSplitFuel, hp] at h
      subst h
      simp [List.drop_eq_nil_of_le (Nat.not_lt.mp hp)]
  | succ n ih =>
    intro pos l h
    by_cases hp : pos < msg.length
    · rw [sendSplitFuel] at h
      simp only [if_pos hp] at h
      cases hr : sendSplitFuel msg C n (pos + C) with
      | none => rw [hr] at h; simp at h
      | some rest =>
        rw [hr] at h
        simp only [Option.some.injEq] at h
        subst h
        simp only [List.map_cons, List.flatten_cons, ih _ _ hr]
        rw [← List.drop_drop]
        exact List.take_append_drop C (msg.drop pos)
    · simp [sendSplitFuel, hp] at h
      subst h
      simp [List.drop_eq_nil_of_le (Nat.not_lt.mp hp)]

/-- Every emitted chunk holds at most `C` bytes. -/
theorem sendSplitFuel_sizes (msg : List Nat) (C : Nat) :
    ∀ fuel pos l, sendSplitFuel msg C fuel pos = some l →
      ∀ p ∈ l, p.2.length ≤ C := by
  intro fuel
  induction fuel with
  | zero =>
    intro pos l h
    by_cases hp : pos < msg.length
    · simp [sendSplitFuel, hp] at h
    · simp [sendSplitFuel, hp] at h; subst h; simp
  | succ n ih =>
    intro pos l h
    by_cases hp : pos < msg.length
    · rw [sendSplitFuel] at h
      simp only [if_pos hp] at h
      cases hr : sendSplitFuel msg C n (pos + C) with
      | none => rw [hr] at h; simp at h
      | some rest =>
        rw [hr] at h
        simp only [Option.some.injEq] at h
        subst h
        intro p hp'
        rcases List.mem_cons.mp hp' with h1 | h2
        · subst h1
          simp
        · exact ih _ _ hr p h2
    · simp [sendSplitFuel, hp] at h; subst h; simp

/-- From any positive loop position on, every emitted tag is the
continuation marker `0`. -/
theorem sendSplitFuel_tags (msg : List Nat) (C : Nat) :
    ∀ fuel pos l, 0 < pos → sendSplitFuel msg C fuel pos = some l →
      ∀ p ∈ l, p.1 = 0 := by
  intro fuel
  induction fuel with
  | zero =>
    intro pos l _ h
    by_cases hp : pos < msg.length
    · simp [sendSplitFuel, hp] at h
    · simp [sendSplitFuel, hp] at h; subst h; simp
  | succ n ih =>
    intro pos l hpos h
    by_cases hp : pos < msg.length
    · rw [sendSplitFuel] at h
      simp only [if_pos hp] at h
      cases hr : sendSplitFuel msg C n (pos + C) with
      | none => rw [hr] at h; simp at h
      | some rest =>
        rw [hr] at h
        simp only [Option.some.injEq] at h
        subst h
        intro p hp'
        rcases List.mem_cons.mp hp' with h1 | h2
        · subst h1; simp [Nat.pos_iff_ne_zero.mp hpos]
        · exact ih _ _ (by omega) hr p h2
    · simp [sendSplitFuel, hp] at h; subst h; simp

/-- The loop emits exactly `⌈(msg.length - pos) / C⌉` chunks, one per
iteration. -/
theorem sendSplitFuel_count (msg : List Nat) (C : Nat) (hC : 0 < C) :
    ∀ fuel pos l, sendSplitFuel msg C fuel pos = some l →
      l.length = (msg.length - pos + C - 1) / C := by
  intro fuel
  induction fuel with
  | zero =>
    intro pos l h
    by_cases hp : pos < msg.length
    · simp [sendSplitFuel, hp] at h
    · simp [sendSplitFuel, hp] at h
      subst h
      have hz : msg.length - pos = 0 := by omega
      simp only [List.length_nil, hz, Nat.zero_add]
      exact (Nat.div_eq_of_lt (by omega : C - 1 < C)).symm
  | succ n ih =>
    intro pos l h
    by_cases hp : pos < msg.length
    · rw [sendSplitFuel] at h
      simp only [if_pos hp] at h
      cases hr : sendSplitFuel msg C n (pos + C) with
      | none => rw [hr] at h; simp at h
      | some rest =>
        rw [hr] at h
        simp only [Option.some.injEq] at h
        subst h
        have hrest := ih _ _ hr
        simp only [List.length_cons, hrest]
        by_cases hdc : msg.length - pos ≤ C
        · have e1 : msg.length - (pos + C) + C - 1 = C - 1 := by omega
          have e2 : msg.length - pos + C - 1 = (msg.length - pos - 1) + C := by omega
          rw [e1, e2, Nat.add_div_right _ hC,
            Nat.div_eq_of_lt (by omega : C - 1 < C),
            Nat.div_eq_of_lt (by omega : msg.length - pos - 1 < C)]
        · have e1 : msg.length - (pos + C) + C - 1 =
              (msg.length - pos - 1 - C) + C := by omega
          have e2 : msg.length - pos + C - 1 =
              ((msg.length - pos - 1 - C) + C) + C := by omega
          rw [e1, e2, Nat.add_div_right _ hC, Nat.add_div_right _ hC,
            Nat.add_div_right _ hC]
    · simp [sendSplitFuel, hp] at h
      subst h
      have hz : msg.length - pos = 0 := by omega
      simp only [List.length_nil, hz, Nat.zero_add]
      exact (Nat.div_eq_of_lt (by omega : C - 1 < C)).symm

/-- With `chunkLimit = 0` the loop position never advances: no amount of
fuel completes the loop on a non-empty message. -/
theorem sendSplitFuel_zero_limit (msg : List Nat) (hm : msg ≠ []) :
    ∀ fuel, sendSplitFuel msg 0 fuel 0 = none := by
  have hl : 0 < msg.length := List.length_pos.mpr hm
  intro fuel
  induction fuel with
  | zero => simp [sendSplitFuel, hl]
  | succ n ih => simp [sendSplitFuel, hl, ih]

/-! ### Helper lemmas about reassembly -/

/-- Feeding the continuation chunks of a message into `handleTransfer`
while a matching partial buffer is in progress completes the reassembly:
the full message is queued, the buffer cleared, and no allowance grant is
emitted. -/
theorem feedChunks_cont (msg : List Nat) (C : Nat) :
    ∀ fuel pos (t : Tunnel) rest, 0 < pos → pos < msg.length →
      t.chunkBuf = some (msg.take pos, msg.length) →
      sendSplitFuel msg C fuel pos = some rest →
      feedChunks t rest =
        ({ t with chunkBuf := none,
                  itoaBuf := t.itoaBuf ++ [msg],
                  itoaSign := true }, []) := by
  intro fuel
  induction fuel with
  | zero =>
    intro pos t rest hpos hlt hbuf h
    simp [sendSplitFuel, hlt] at h
  | succ n ih =>
    intro pos t rest hpos hlt hbuf h
    rw [sendSplitFuel] at h
    simp only [if_pos hlt] at h
    cases hr : sendSplitFuel msg C n (pos + C) with
    | none => rw [hr] at h; simp at h
    | some rest' =>
      rw [hr] at h
      simp only [Option.some.injEq] at h
      subst h
      have htag : (if pos = 0 then msg.length else 0) = 0 := by
        simp [Nat.pos_iff_ne_zero.mp hpos]
      by_cases hend : msg.length ≤ pos + C
      · have hrest' : rest' = [] := by
          have hd := sendSplitFuel_done msg C n (pos + C) hend
          rw [hd] at hr
          exact (Option.some.injEq _ _ ▸ hr).symm
        subst hrest'
        rw [feedChunks]
        simp only [htag, handleTransfer, hbuf, appendChunk, ne_eq,
          not_true_eq_false, if_neg, ite_false]
        rw [← List.take_add, List.take_of_length_le hend]
        simp [feedChunks]
      · have hlen : (msg.take pos ++ (msg.drop pos).take C).length =
            pos + C := by
          rw [← List.take_add, List.length_take]
          omega
        rw [feedChunks]
        simp only [htag, handleTransfer, hbuf, appendChunk, ne_eq,
          not_true_eq_false, if_neg, ite_false]
        rw [hlen, if_neg (by omega : ¬pos + C = msg.length), ← List.take_add]
        simp only [ih (pos + C)
          { t with chunkBuf := some (msg.take (pos + C), msg.length) }
          rest' (by omega) (by omega) rfl hr]
        simp

/-- The first chunk of a message, fed to `handleTransfer` on a tunnel with
no reassembly in progress, starts (and possibly completes) the buffer
without emitting any allowance grant. -/
theorem feedChunks_whole (msg : List Nat) (C : Nat) (t : Tunnel)
    (hm : 0 < msg.length) (hC : 0 < C) (hCL : C ≤ msg.length)
    (hbuf : t.chunkBuf = none) :
    feedChunks t (sendSplit msg C) =
      ({ t with chunkBuf := none,
                itoaBuf := t.itoaBuf ++ [msg],
                itoaSign := true }, []) := by
  have h0 := sendSplit_eq_some msg C hC
  rcases hL : msg.length with _ | k
  · omega
  · rw [hL, sendSplitFuel] at h0
    rw [if_pos hm] at h0
    cases hr : sendSplitFuel msg C k (0 + C) with
    | none => rw [hr] at h0; simp at h0
    | some rest =>
      rw [hr] at h0
      simp only [Option.some.injEq, if_pos rfl, List.drop_zero] at h0
      rw [← h0, feedChunks]
      have hne : ¬msg.length = 0 := by omega
      simp only [handleTransfer, hbuf, appendChunk, ne_eq, hne,
        not_false_iff, if_true, ite_true, List.nil_append, List.length_take,
        Nat.min_eq_left hCL]
      by_cases hCeq : C = msg.length
      · rw [if_pos hCeq]
        have hrest : rest = [] := by
          have hd := sendSplitFuel_done msg C k (0 + C) (by omega)
          rw [hd] at hr
          exact (Option.some.injEq _ _ ▸ hr).symm
        subst hrest
        rw [List.take_of_length_le (by omega)]
        simp [feedChunks]
      · rw [if_neg hCeq]
        simp only [feedChunks_cont msg C k C
          { t with chunkBuf := some (msg.take C, msg.length) }
          rest hC (by omega) rfl (by rw [← hr]; norm_num)]
        simp

/-- Fuel can be shrunk to the exact number of emitted chunks: each loop
iteration emits exactly one chunk. -/
theorem sendSplitFuel_exact (msg : List Nat) (C : Nat) :
    ∀ fuel pos l, sendSplitFuel msg C fuel pos = some l →
      sendSplitFuel msg C l.length pos = some l := by
  intro fuel
  induction fuel with
  | zero =>
    intro pos l h
    by_cases hp : pos < msg.length
    · simp [sendSplitFuel, hp] at h
    · simp [sendSplitFuel, hp] at h
      subst h
      exact sendSplitFuel_done msg C 0 pos (Nat.not_lt.mp hp)
  | succ n ih =>
    intro pos l h
    by_cases hp : pos < msg.length
    · rw [sendSplitFuel] at h
      simp only [if_pos hp] at h
      cases hr : sendSplitFuel msg C n (pos + C) with
      | none => rw [hr] at h; simp at h
      | some rest =>
        rw [hr] at h
        simp only [Option.some.injEq] at h
        subst h
        simp only [List.length_cons]
        rw [sendSplitFuel]
        simp only [if_pos hp, ih _ _ hr]
    · simp [sendSplitFuel, hp] at h
      subst h
      exact sendSplitFuel_done msg C 0 pos (Nat.not_lt.mp hp)

/-! ### Helper lemmas about flow control and termination -/

/-- `drainAllowance` leaves the termination flag untouched. -/
theorem drainAllowance_term (t : Tunnel) (need : Int) :
    (drainAllowance t need).2.term = t.term := by
  rw [drainAllowance]
  by_cases h : need ≤ t.atoiSpace <;> simp [h]

/-- On a terminal tunnel the chunk-sending loop never parks: every chunk
either goes out on available credit or the loop fails with `Closed`. -/
theorem sendSteps_no_wait (chunks : List (Nat × List Nat)) :
    ∀ t : Tunnel, t.term = true →
      (sendSteps t chunks).1 ≠ SendOutcome.waits := by
  induction chunks with
  | nil => intro t _; simp [sendSteps]
  | cons c rest ih =>
    intro t ht
    rw [sendSteps, sendChunkStep]
    by_cases hd : (drainAllowance t (c.2.length : Int)).1
    · simpa [hd] using ih _ (by rw [drainAllowance_term]; exact ht)
    · simp [hd, drainAllowance_term, ht]

/-- Any sequence of non-negative grants and drain attempts keeps the
allowance counter non-negative. -/
theorem applyAtoiOps_nonneg (ops : List AtoiOp) :
    ∀ t : Tunnel, 0 ≤ t.atoiSpace →
      (∀ g : Int, AtoiOp.grant g ∈ ops → 0 ≤ g) →
      0 ≤ (applyAtoiOps t ops).atoiSpace := by
  induction ops with
  | nil =>
    intro t h0 _
    simpa [applyAtoiOps] using h0
  | cons op rest ih =>
    intro t h0 hg
    have hstep : 0 ≤ (applyAtoiOp t op).atoiSpace := by
      cases op with
      | grant g =>
        have := hg g (List.mem_cons_self _ _)
        simp only [applyAtoiOp, handleAllowance]
        omega
      | drain need =>
        rw [applyAtoiOp, drainAllowance]
        by_cases h : need ≤ t.atoiSpace
        · simp only [if_pos h]
          omega
        · simp only [if_neg h]
          exact h0
    have : applyAtoiOps t (op :: rest) = applyAtoiOps (applyAtoiOp t op) rest := by
      simp [applyAtoiOps]
    rw [this]
    exact ih _ hstep (fun g hgm => hg g (List.mem_cons_of_mem _ hgm))

/-! ### Claim theorems -/

/-- C1: for any message of length L > 0 and any chunk limit C with
0 < C ≤ L, splitting the message as Send does (consecutive chunks of at
most C bytes, size-tagged first chunk, zero-tagged continuations) and
feeding the chunks in order to handleTransfer on a tunnel with no
reassembly in progress pushes exactly the original message as a single
entry onto the inbound queue and leaves the reassembly buffer cleared
(and grants no allowance along the way). -/
theorem c1_chunk_round_trip (msg : List Nat) (C : Nat) (t : Tunnel)
    (hm : 0 < msg.length) (hC : 0 < C) (hCL : C ≤ msg.length)
    (hbuf : t.chunkBuf = none) :
    (feedChunks t (sendSplit msg C)).1.itoaBuf = t.itoaBuf ++ [msg] ∧
    (feedChunks t (sendSplit msg C)).1.chunkBuf = none ∧
    (feedChunks t (sendSplit msg C)).2 = [] := by
  rw [feedChunks_whole msg C t hm hC hCL hbuf]
  exact ⟨rfl, rfl, rfl⟩

/-- Witness for C1 at message [1,2,3,4,5] and chunk limit 2. -/
theorem c1_chunk_round_trip_witness :
    (feedChunks (newTunnel 2) (sendSplit [1, 2, 3, 4, 5] 2)).1.itoaBuf =
        (newTunnel 2).itoaBuf ++ [[1, 2, 3, 4, 5]] ∧
    (feedChunks (newTunnel 2) (sendSplit [1, 2, 3, 4, 5] 2)).1.chunkBuf = none ∧
    (feedChunks (newTunnel 2) (sendSplit [1, 2, 3, 4, 5] 2)).2 = [] :=
  c1_chunk_round_trip [1, 2, 3, 4, 5] 2 (newTunnel 2)
    (by decide) (by decide) (by decide) rfl

/-- C7: Send splits every non-empty message into consecutive chunks of at
most chunkLimit bytes emitted strictly in order (their concatenation is
the original message), the first chunk tagged with the total message
length and every later chunk tagged 0; with chunkLimit 4 the 10-byte
message "HELLOWORLD" yields exactly (10,"HELL"), (0,"OWOR"), (0,"LD"). -/
theorem c7_send_chunking (msg : List Nat) (C : Nat)
    (hm : 0 < msg.length) (hC : 0 < C) :
    ((sendSplit msg C).map Prod.snd).flatten = msg ∧
    (∀ p ∈ sendSplit msg C, p.2.length ≤ C) ∧
    (sendSplit msg C).head?.map Prod.fst = some msg.length ∧
    (∀ p ∈ (sendSplit msg C).tail, p.1 = 0) ∧
    sendSplit [72, 69, 76, 76, 79, 87, 79, 82, 76, 68] 4 =
      [(10, [72, 69, 76, 76]), (0, [79, 87, 79, 82]), (0, [76, 68])] := by
  have h0 := sendSplit_eq_some msg C hC
  refine ⟨?_, sendSplitFuel_sizes msg C _ _ _ h0, ?_, ?_, by decide⟩
  · simpa using sendSplitFuel_flatten msg C _ _ _ h0
  · rcases hL : msg.length with _ | k
    · omega
    · rw [hL, sendSplitFuel, if_pos hm] at h0
      cases hr : sendSplitFuel msg C k (0 + C) with
      | none => rw [hr] at h0; simp at h0
      | some rest =>
        rw [hr] at h0
        simp only [Option.some.injEq, if_pos rfl, List.drop_zero] at h0
        rw [← h0]
        simp [hL]
  · rcases hL : msg.length with _ | k
    · omega
    · rw [hL, sendSplitFuel, if_pos hm] at h0
      cases hr : sendSplitFuel msg C k (0 + C) with
      | none => rw [hr] at h0; simp at h0
      | some rest =>
        rw [hr] at h0
        simp only [Option.some.injEq, if_pos rfl, List.drop_zero] at h0
        rw [← h0]
        exact sendSplitFuel_tags msg C k (0 + C) rest (by omega) hr

/-- Witness for C7 at the spec's own scenario: "HELLOWORLD" with
chunk limit 4. -/
theorem c7_send_chunking_witness :
    ((sendSplit [72, 69, 76, 76, 79, 87, 79, 82, 76, 68] 4).map
        Prod.snd).flatten = [72, 69, 76, 76, 79, 87, 79, 82, 76, 68] ∧
    (∀ p ∈ sendSplit [72, 69, 76, 76, 79, 87, 79, 82, 76, 68] 4,
      p.2.length ≤ 4) ∧
    (sendSplit [72, 69, 76, 76, 79, 87, 79, 82, 76, 68] 4).head?.map
        Prod.fst = some (List.length [72, 69, 76, 76, 79, 87, 79, 82, 76, 68]) ∧
    (∀ p ∈ (sendSplit [72, 69, 76, 76, 79, 87, 79, 82, 76, 68] 4).tail,
      p.1 = 0) ∧
    sendSplit [72, 69, 76, 76, 79, 87, 79, 82, 76, 68] 4 =
      [(10, [72, 69, 76, 76]), (0, [79, 87, 79, 82]), (0, [76, 68])] :=
  c7_send_chunking [72, 69, 76, 76, 79, 87, 79, 82, 76, 68] 4
    (by decide) (by decide)

/-- C10: with chunkLimit ≥ 1 the Send split loop terminates after exactly
⌈L / chunkLimit⌉ iterations — that much fuel completes the loop and the
loop emits exactly one chunk per iteration — while with chunkLimit = 0 the
loop position never advances, so no amount of fuel completes the loop on a
non-empty message. -/
theorem c10_send_loop_termination (msg : List Nat) (C : Nat)
    (hm : 0 < msg.length) (hC : 1 ≤ C) :
    (sendSplit msg C).length = (msg.length + C - 1) / C ∧
    sendSplitFuel msg C ((msg.length + C - 1) / C) 0 =
      some (sendSplit msg C) ∧
    (∀ fuel, sendSplitFuel msg 0 fuel 0 = none) := by
  have h0 := sendSplit_eq_some msg C hC
  have hcount := sendSplitFuel_count msg C hC _ _ _ h0
  simp only [Nat.sub_zero] at hcount
  refine ⟨hcount, ?_, ?_⟩
  · have hex := sendSplitFuel_exact msg C _ _ _ h0
    rwa [hcount] at hex
  · exact sendSplitFuel_zero_limit msg
      (fun hnil => by simp [hnil] at hm)

/-- Witness for C10 at a 5-byte message with chunk limit 2 (three
iterations). -/
theorem c10_send_loop_termination_witness :
    (sendSplit [1, 2, 3, 4, 5] 2).length =
      (List.length [1, 2, 3, 4, 5] + 2 - 1) / 2 ∧
    sendSplitFuel [1, 2, 3, 4, 5] 2
        ((List.length [1, 2, 3, 4, 5] + 2 - 1) / 2) 0 =
      some (sendSplit [1, 2, 3, 4, 5] 2) ∧
    (∀ fuel, sendSplitFuel [1, 2, 3, 4, 5] 0 fuel 0 = none) :=
  c10_send_loop_termination [1, 2, 3, 4, 5] 2 (by decide) (by decide)

/-- C2 counterexample: a tunnel made terminal by handleClose that still
holds a buffered inbound message and send credit: the next Recv returns
the message and the next Send transmits — neither fails with Closed, so
"every subsequent Send call and every subsequent Recv call fails
immediately with the Closed error" is false on the code. -/
theorem c2_counterexample :
    handleClose { newTunnel 4 with itoaBuf := [[1, 2]], atoiSpace := 10 } "" =
      some { newTunnel 4 with
               itoaBuf := [[1, 2]], atoiSpace := 10, term := true } ∧
    (recvStep { newTunnel 4 with
                  itoaBuf := [[1, 2]], atoiSpace := 10, term := true }).1 =
      RecvOutcome.msg [1, 2] ∧
    (sendModel { newTunnel 4 with
                   itoaBuf := [[1, 2]], atoiSpace := 10, term := true }
        [7]).1 = SendOutcome.ok :=
  ⟨rfl, rfl, rfl⟩

/-- C2 (amended): once the tunnel is terminal no Send or Recv ever parks:
a Recv finding the inbound queue empty fails immediately with Closed, and
a Send fails immediately with Closed at the first chunk whose credit is
not already available — but a Recv still returns a buffered message, and
chunks covered by the remaining credit are still transmitted. -/
theorem c2_terminal_no_block (t : Tunnel) (message : List Nat)
    (hterm : t.term = true) :
    (t.itoaBuf = [] → (recvStep t).1 = RecvOutcome.closed) ∧
    (∀ m rest, t.itoaBuf = m :: rest → (recvStep t).1 = RecvOutcome.msg m) ∧
    (sendModel t message).1 ≠ SendOutcome.waits := by
  refine ⟨?_, ?_, ?_⟩
  · intro hq
    simp [recvStep, fetchMessage, hq, hterm]
  · intro m rest hq
    simp [recvStep, fetchMessage, hq]
  · rw [sendModel]
    by_cases hmsg : message = []
    · simp [hmsg]
    · simp only [hmsg, if_neg, ite_false]
      exact sendSteps_no_wait _ t hterm

/-- Witness for C2 (amended) on a terminal tunnel with an empty queue and
no credit. -/
theorem c2_terminal_no_block_witness :
    ((newTunnel 4 : Tunnel).itoaBuf = [] →
      (recvStep { newTunnel 4 with term := true }).1 = RecvOutcome.closed) ∧
    (∀ m rest,
      ({ newTunnel 4 with term := true } : Tunnel).itoaBuf = m :: rest →
      (recvStep { newTunnel 4 with term := true }).1 = RecvOutcome.msg m) ∧
    (sendModel { newTunnel 4 with term := true } [9]).1 ≠
      SendOutcome.waits := by
  have h := c2_terminal_no_block { newTunnel 4 with term := true } [9] rfl
  exact ⟨fun _ => h.1 rfl, h.2.1, h.2.2⟩

/-- C3 counterexample: calling handleClose on an already-terminal tunnel
is not a no-op: the second `close(t.term)` is a double close of the term
channel, a runtime fault (modelled as `none`). -/
theorem c3_counterexample :
    handleClose (newTunnel 4) "" = some { newTunnel 4 with term := true } ∧
    handleClose { newTunnel 4 with term := true } "" = none :=
  ⟨rfl, rfl⟩

/-- C3 (amended): handleClose on a not-yet-terminal tunnel raises the
terminal signal, but a second handleClose on the now-terminal tunnel is a
fault (double close of the term channel panics), not a no-op: the
terminal signal is raised exactly once only because the dispatch path
invokes handleClose at most once per tunnel. -/
theorem c3_close_once (t : Tunnel) (r1 r2 : String) (h : t.term = false) :
    ∃ t', handleClose t r1 = some t' ∧ t'.term = true ∧
      handleClose t' r2 = none := by
  rw [handleClose, if_neg (by simp [h])]
  refine ⟨_, rfl, rfl, ?_⟩
  rw [handleClose]
  simp

/-- Witness for C3 (amended) on a fresh tunnel. -/
theorem c3_close_once_witness :
    ∃ t', handleClose (newTunnel 4) "" = some t' ∧ t'.term = true ∧
      handleClose t' "boom" = none :=
  c3_close_once (newTunnel 4) "" "boom" rfl

/-- C4: handleTransfer with a non-zero size tag while a partial buffer of
P bytes is pending behaves exactly like the same call with no pending
buffer except that an allowance of exactly P bytes is granted back: the
partial bytes are discarded and a fresh buffer of capacity equal to the
newly declared total length is started before the chunk is appended. -/
theorem c4_abandoned_credit (t : Tunnel) (size : Nat)
    (chunk data : List Nat) (hicap : Nat)
    (hs : size ≠ 0) (hb : t.chunkBuf = some (data, hicap)) :
    handleTransfer t size chunk =
      ((handleTransfer { t with chunkBuf := none } size chunk).1,
        [data.length]) ∧
    (chunk.length ≠ size →
      (handleTransfer t size chunk).1.chunkBuf = some (chunk, size)) ∧
    (chunk.length = size →
      (handleTransfer t size chunk).1.chunkBuf = none ∧
      (handleTransfer t size chunk).1.itoaBuf = t.itoaBuf ++ [chunk]) := by
  refine ⟨?_, ?_, ?_⟩
  · simp only [handleTransfer, hb, appendChunk, ne_eq, hs, not_false_iff,
      if_true, ite_true, List.nil_append]
    by_cases hcl : chunk.length = size <;> simp [hcl]
  · intro hcl
    simp [handleTransfer, hb, appendChunk, hs, hcl]
  · intro hcl
    simp [handleTransfer, hb, appendChunk, hs, hcl]

/-- Witness for C4: a pending 2-byte partial buffer abandoned by a new
3-byte message. -/
theorem c4_abandoned_credit_witness :
    handleTransfer { newTunnel 4 with chunkBuf := some ([5, 6], 9) } 3 [7] =
      ((handleTransfer
          { { newTunnel 4 with chunkBuf := some ([5, 6], 9) } with
              chunkBuf := none } 3 [7]).1, [List.length [5, 6]]) ∧
    (List.length [7] ≠ 3 →
      (handleTransfer { newTunnel 4 with chunkBuf := some ([5, 6], 9) }
          3 [7]).1.chunkBuf = some ([7], 3)) ∧
    (List.length [7] = 3 →
      (handleTransfer { newTunnel 4 with chunkBuf := some ([5, 6], 9) }
          3 [7]).1.chunkBuf = none ∧
      (handleTransfer { newTunnel 4 with chunkBuf := some ([5, 6], 9) }
          3 [7]).1.itoaBuf =
        ({ newTunnel 4 with chunkBuf := some ([5, 6], 9) } : Tunnel).itoaBuf
          ++ [[7]]) :=
  c4_abandoned_credit { newTunnel 4 with chunkBuf := some ([5, 6], 9) }
    3 [7] [5, 6] 9 (by decide) rfl

/-- C5: the outbound credit counter never goes negative: drainAllowance
succeeds (and subtracts) exactly when the credit covers the need and
leaves the credit unchanged otherwise, so any interleaving of
non-negative handleAllowance grants with drainAllowance attempts keeps
the counter ≥ 0 after every prefix of operations. -/
theorem c5_allowance_nonneg (t : Tunnel) (ops : List AtoiOp)
    (h0 : 0 ≤ t.atoiSpace)
    (hg : ∀ g : Int, AtoiOp.grant g ∈ ops → 0 ≤ g) :
    (∀ n, 0 ≤ (applyAtoiOps t (ops.take n)).atoiSpace) ∧
    (∀ (u : Tunnel) (need : Int),
      ((drainAllowance u need).1 = true ↔ need ≤ u.atoiSpace) ∧
      ((drainAllowance u need).1 = true →
        (drainAllowance u need).2.atoiSpace = u.atoiSpace - need) ∧
      ((drainAllowance u need).1 = false →
        (drainAllowance u need).2.atoiSpace = u.atoiSpace)) := by
  constructor
  · intro n
    exact applyAtoiOps_nonneg (ops.take n) t h0
      (fun g hgm => hg g (List.mem_of_mem_take hgm))
  · intro u need
    rw [drainAllowance]
    by_cases h : need ≤ u.atoiSpace <;> simp [h]

/-- Witness for C5: a grant of 5 followed by drains of 3 and 4. -/
theorem c5_allowance_nonneg_witness :
    (∀ n, 0 ≤ (applyAtoiOps (newTunnel 4)
      (([AtoiOp.grant 5, AtoiOp.drain 3, AtoiOp.drain 4]).take n)).atoiSpace) ∧
    (∀ (u : Tunnel) (need : Int),
      ((drainAllowance u need).1 = true ↔ need ≤ u.atoiSpace) ∧
      ((drainAllowance u need).1 = true →
        (drainAllowance u need).2.atoiSpace = u.atoiSpace - need) ∧
      ((drainAllowance u need).1 = false →
        (drainAllowance u need).2.atoiSpace = u.atoiSpace)) :=
  c5_allowance_nonneg (newTunnel 4)
    [AtoiOp.grant 5, AtoiOp.drain 3, AtoiOp.drain 4] (by decide)
    (by intro g hgm; simp at hgm; omega)

/-- C6: after handleClose(reason) made the tunnel terminal, Close returns
the stored closure reason — nil for an empty (graceful) reason text, the
wrapped remote error for non-empty text — without sending a close
notification; Close neither mutates the tunnel nor depends on anything
but its state, so repeated calls return the same result. -/
theorem c6_close_reason (t : Tunnel) (reason : String) (t' : Tunnel)
    (hstat : t.stat = none) (hterm : t.term = false)
    (hc : handleClose t reason = some t') :
    closeStep t' =
      (CloseOutcome.done
        (if reason = "" then none else some ("remote error: " ++ reason)),
        false) := by
  rw [handleClose, if_neg (by simp [hterm])] at hc
  simp only [Option.some.injEq] at hc
  subst hc
  rw [closeStep]
  by_cases hr : reason = "" <;> simp [hr, hstat]

/-- Witness for C6 at reason "peer crashed". -/
theorem c6_close_reason_witness :
    closeStep { newTunnel 4 with
                  stat := some ("remote error: " ++ "peer crashed"),
                  term := true } =
      (CloseOutcome.done
        (if "peer crashed" = "" then none
         else some ("remote error: " ++ "peer crashed")), false) :=
  c6_close_reason (newTunnel 4) "peer crashed" _ rfl rfl rfl

/-- C8: whenever tunnel initiation fails after the pending tunnel was
registered — the relay reports rejection/timeout (Timeout), the
connection terminates (Closed), the init send fails, or the initial
allowance send fails (itself a construction failure) — the pending tunnel
is removed from the registry and no tunnel is handed to the caller. -/
theorem c8_init_cleanup (reg : List Nat) (tunId : Nat) (cluster : String)
    (tms : Int) (initSendOk : Bool) (ev : InitEvent) (allowSendOk : Bool)
    (hcl : cluster.length ≠ 0) (htm : 1 ≤ tms) :
    ((initTunnelModel reg tunId cluster tms initSendOk ev allowSendOk).2.isSome →
      tunId ∉ (initTunnelModel reg tunId cluster tms initSendOk ev allowSendOk).1) ∧
    (initSendOk = false →
      (initTunnelModel reg tunId cluster tms initSendOk ev allowSendOk).2 =
        some IrisError.transport) ∧
    (initSendOk = true → ev = InitEvent.connTerm →
      (initTunnelModel reg tunId cluster tms initSendOk ev allowSendOk).2 =
        some IrisError.closed) ∧
    (initSendOk = true → ev = InitEvent.result 0 →
      (initTunnelModel reg tunId cluster tms initSendOk ev allowSendOk).2 =
        some IrisError.timeout) ∧
    (∀ L, initSendOk = true → ev = InitEvent.result L → 0 < L →
      allowSendOk = false →
      (initTunnelModel reg tunId cluster tms initSendOk ev allowSendOk).2 =
        some IrisError.transport) := by
  rw [initTunnelModel, if_neg (by simpa using hcl),
    if_neg (by omega : ¬tms < 1)]
  refine ⟨?_, ?_, ?_, ?_, ?_⟩
  · intro hsome
    cases initSendOk with
    | false => simp [List.mem_filter]
    | true =>
      cases ev with
      | connTerm => simp [List.mem_filter]
      | result L =>
        by_cases hL : L > 0
        · cases allowSendOk with
          | true => simp [hL] at hsome
          | false => simp [hL, List.mem_filter]
        · simp [hL, List.mem_filter]
  · intro h; subst h; rfl
  · intro h1 h2; subst h1; subst h2; rfl
  · intro h1 h2; subst h1; subst h2; rfl
  · intro L h1 h2 h3 h4; subst h1; subst h2; subst h4; simp [h3]

/-- Witness for C8: relay rejection (result 0) on a fresh registry. -/
theorem c8_init_cleanup_witness :
    ((initTunnelModel [] 1 "c" 1000 true (InitEvent.result 0) true).2.isSome →
      1 ∉ (initTunnelModel [] 1 "c" 1000 true (InitEvent.result 0) true).1) ∧
    (true = false →
      (initTunnelModel [] 1 "c" 1000 true (InitEvent.result 0) true).2 =
        some IrisError.transport) ∧
    (true = true → InitEvent.result 0 = InitEvent.connTerm →
      (initTunnelModel [] 1 "c" 1000 true (InitEvent.result 0) true).2 =
        some IrisError.closed) ∧
    (true = true → InitEvent.result 0 = InitEvent.result 0 →
      (initTunnelModel [] 1 "c" 1000 true (InitEvent.result 0) true).2 =
        some IrisError.timeout) ∧
    (∀ L, true = true → InitEvent.result 0 = InitEvent.result L → 0 < L →
      true = false →
      (initTunnelModel [] 1 "c" 1000 true (InitEvent.result 0) true).2 =
        some IrisError.transport) :=
  c8_init_cleanup [] 1 "c" 1000 true (InitEvent.result 0) true
    (by decide) (by decide)

/-- C9 counterexample: handleInitResult invoked while the initiating call
is no longer receiving on the init channel blocks — the unbuffered send
has no rendezvous partner — so "none of the four relay-event handlers
ever blocks" is false on the code. -/
theorem c9_counterexample :
    handleInitResult (newTunnel 0) 5 false = none :=
  rfl

/-- C9 (amended): handleAllowance, handleTransfer and handleClose are
total state transformers doing bounded, non-blocking work, but
handleInitResult performs an unbuffered send on the init channel and
completes exactly when the initiating call is parked receiving on it;
invoked without that receiver it blocks. -/
theorem c9_init_result_rendezvous (t : Tunnel) (limit : Nat) (r : Bool) :
    (handleInitResult t limit r).isSome ↔ r = true := by
  cases r <;> simp [handleInitResult]

end IrisTunnel
